import Mathlib

/-!
Verification development for the world-trade-cron signal aggregation pipeline.

Modelling conventions (shallow embedding of the TypeScript source):
* JavaScript numbers are idealized as exact rationals (`ℚ`); `Math.floor` is `Int.floor`,
  `BigInt` values are `ℤ`.
* `Date` values are integers: milliseconds since the epoch (comparison of `Date` objects in
  the source goes through `getTime()`/`valueOf()`).
* `parseFloat` is modelled on decimal numerals (optional sign, digits, optional fraction);
  exponent and `Infinity` forms, which never occur in the strings this pipeline produces or
  stores, are outside the model and parse to `none` (JS `NaN` is `none`).
* A string field that may be `undefined` in JS is modelled as `""`; the source treats the
  two identically where it matters (falsiness check in `filterValidSignals`).
* `x.toFixed(2)` is modelled per the ECMAScript algorithm: round to the nearest hundredth,
  ties away from zero, printed with exactly two fraction digits (sign kept even for -0.00).
* `s.replace('%', '')` with a string pattern replaces only the first occurrence.
-/

namespace WorldTradeCron

/-! ### Decimal digits, numerals and number formatting -/

def digitChar (d : Nat) : Char := Char.ofNat (48 + d)

def isDigitCh (c : Char) : Bool := decide (48 ≤ c.toNat) && decide (c.toNat ≤ 57)

def digitVal (c : Char) : Nat := c.toNat - 48

/-- Value of a big-endian list of digit characters. -/
def digitsVal (cs : List Char) : Nat := cs.foldl (fun a c => 10 * a + digitVal c) 0

/-- Little-endian decimal digits of `n`, with explicit fuel (structural recursion so the
kernel can evaluate it). -/
def natDigitsRevAux : Nat → Nat → List Nat
  | 0, _ => []
  | fuel + 1, n => if n = 0 then [] else n % 10 :: natDigitsRevAux fuel (n / 10)

def natDigitsRev (n : Nat) : List Nat := natDigitsRevAux (n + 1) n

/-- Decimal representation of a natural number, as characters. -/
def natChars (n : Nat) : List Char :=
  if n = 0 then ['0'] else (natDigitsRev n).reverse.map digitChar

def natStr (n : Nat) : String := ⟨natChars n⟩

/-- JS `Number.prototype.toString` for integer-valued numbers. -/
def intStr (i : Int) : String := if i < 0 then "-" ++ natStr i.natAbs else natStr i.natAbs

/-- Exactly two decimal digits (argument `< 100`). -/
def pad2 (n : Nat) : List Char :=
  if n < 10 then ['0', digitChar n] else [digitChar (n / 10), digitChar (n % 10)]

/-! The four basic `Rat` operations are `@[irreducible]` in Batteries, so terms built from
`+ - * /` on `ℚ` cannot be evaluated by the kernel (`decide`/`rfl`). The executable
definitions below therefore use the following wrappers, built from `mkRat`/`Rat.divInt`
(which do reduce); each is proved equal to the ordinary operation, and every theorem is
stated with the ordinary operations. -/

/-- Kernel-computable addition on `ℚ`; equal to `· + ·` by `qadd_eq`. -/
def qadd (a b : ℚ) : ℚ := mkRat (a.num * b.den + b.num * a.den) (a.den * b.den)

/-- Kernel-computable subtraction on `ℚ`; equal to `· - ·` by `qsub_eq`. -/
def qsub (a b : ℚ) : ℚ := mkRat (a.num * b.den - b.num * a.den) (a.den * b.den)

/-- Kernel-computable multiplication on `ℚ`; equal to `· * ·` by `qmul_eq`. -/
def qmul (a b : ℚ) : ℚ := mkRat (a.num * b.num) (a.den * b.den)

/-- Kernel-computable division on `ℚ`; equal to `· / ·` by `ratDiv_eq_div`. -/
def ratDiv (a b : ℚ) : ℚ := Rat.divInt (a.num * b.den) (a.den * b.num)

/-- Kernel-computable absolute value on `ℚ`; equal to `|·|` by `qabs_eq`. -/
def qabs (q : ℚ) : ℚ := if q < 0 then -q else q

theorem qadd_eq (a b : ℚ) : qadd a b = a + b := (Rat.add_def' a b).symm

theorem qsub_eq (a b : ℚ) : qsub a b = a - b := (Rat.sub_def' a b).symm

theorem qmul_eq (a b : ℚ) : qmul a b = a * b := by
  rw [qmul, Rat.mul_def, Rat.normalize_eq_mkRat]

theorem qabs_eq (q : ℚ) : qabs q = |q| := by
  rw [qabs, abs]
  rcases lt_trichotomy q 0 with h | h | h
  · simp [h, le_of_lt, max_eq_right, neg_nonneg, h.le]
  · simp [h]
  · simp [not_lt.mpr h.le, max_eq_left, (neg_nonpos.mpr h.le).trans h.le]

theorem ratDiv_eq_div (a b : ℚ) : ratDiv a b = a / b := by
  rw [ratDiv, Rat.divInt_eq_div]
  rcases eq_or_ne b 0 with hb | hb
  · subst hb; simp
  · have hbn : (b.num : ℚ) ≠ 0 := by exact_mod_cast Rat.num_ne_zero.mpr hb
    have had : (a.den : ℚ) ≠ 0 := Nat.cast_ne_zero.mpr a.den_nz
    have hbd : (b.den : ℚ) ≠ 0 := Nat.cast_ne_zero.mpr b.den_nz
    have ha : (a.num : ℚ) = a * a.den := (div_eq_iff had).mp (Rat.num_div_den a)
    have hbq : (b.num : ℚ) = b * b.den := (div_eq_iff hbd).mp (Rat.num_div_den b)
    have hd : ((a.den : ℚ) * (b.num : ℚ)) ≠ 0 := mul_ne_zero had hbn
    push_cast
    rw [div_eq_div_iff hd hb, ha, hbq]
    ring

/-- Numerator of `|q|` rounded to hundredths, ties away from zero (ECMAScript `toFixed`). -/
def fixedNum (q : ℚ) : Nat := (⌊qadd (qmul (qabs q) 100) (mkRat 1 2)⌋).toNat

theorem fixedNum_eq (q : ℚ) : fixedNum q = (⌊|q| * 100 + (1 : ℚ) / 2⌋).toNat := by
  rw [fixedNum, qadd_eq, qmul_eq, qabs_eq]
  norm_num [Rat.mkRat_eq_div]

/-- Model of JS `x.toFixed(2)`, as a character list. -/
def toFixed2Chars (q : ℚ) : List Char :=
  (if q < 0 then ['-'] else []) ++ natChars (fixedNum q / 100) ++ '.' :: pad2 (fixedNum q % 100)

/-- Model of JS `x.toFixed(2)`. -/
def toFixed2 (q : ℚ) : String := ⟨toFixed2Chars q⟩

/-- Rounds `q` to the nearest hundredth, ties away from zero. -/
def round2 (q : ℚ) : ℚ :=
  if q < 0 then -((fixedNum q : ℚ) / 100) else (fixedNum q : ℚ) / 100

/-! ### Model of `parseFloat` and of `s.replace('%','')` -/

/-- Digits-and-fraction part of `parseFloat`, after sign extraction. -/
def jsParseUnsigned (cs : List Char) (neg : Bool) : Option ℚ :=
  let intDs := cs.takeWhile isDigitCh
  let rest := cs.dropWhile isDigitCh
  let fracDs := match rest with
    | '.' :: r => r.takeWhile isDigitCh
    | _ => []
  if intDs.isEmpty && fracDs.isEmpty then none
  else
    let v : ℚ := qadd (digitsVal intDs : ℚ) (mkRat (digitsVal fracDs) (10 ^ fracDs.length))
    some (if neg then -v else v)

/-- Model of JS `parseFloat` (`none` = `NaN`): leading spaces skipped, optional sign, longest
numeric prefix. -/
def jsParseFloatChars (cs0 : List Char) : Option ℚ :=
  let cs := cs0.dropWhile (fun c => c == ' ')
  match cs with
  | [] => jsParseUnsigned [] false
  | c :: rest =>
    if c = '-' then jsParseUnsigned rest true
    else if c = '+' then jsParseUnsigned rest false
    else jsParseUnsigned (c :: rest) false

/-- JS `s.replace('%','')` removes only the first occurrence. -/
def stripFirstPercent : List Char → List Char
  | [] => []
  | c :: cs => if c = '%' then cs else c :: stripFirstPercent cs

/-- The idiom `parseFloat(s.replace('%',''))` used throughout the source. -/
def parsePnL (s : String) : Option ℚ := jsParseFloatChars (stripFirstPercent s.data)

/-! ### Data model (src/src/types/index.ts; only the fields the core logic reads) -/

/-- Model of `Subscriber` (types/index.ts:1-5); `subscribedAt` in epoch milliseconds. -/
structure Subscriber where
  username : String
  address : String
  subscribedAt : Int
deriving DecidableEq

/-- Model of `Influencer` (types/index.ts:7-12). The optional `subscribers?` array is modelled as a
list; an absent array behaves like the empty list (the source skips the influencer, the
model iterates zero subscribers — same effect). Unused display fields are omitted. -/
structure Influencer where
  name : String
  subscribers : List Subscriber
deriving DecidableEq

/-- Model of `BacktestingSignal` (types/index.ts:14-49), restricted to the fields the pipeline
reads: `_id` (as `sid`), `"Twitter Account"`, `"Signal Generation Date"` (epoch ms),
`"Final P&L"`, `"backtesting_done"`. -/
structure BacktestingSignal where
  sid : String
  account : String
  generatedAt : Int
  finalPnL : String
  backtestingDone : Bool
deriving DecidableEq

/-- Model of `ProcessedSignal` (types/index.ts:51-58). -/
structure ProcessedSignal where
  subscriberAddress : String
  influencerName : String
  signalId : String
  finalPnL : String
  signalGenerationDate : Int
  subscribedAt : Int
deriving DecidableEq

/-- Model of `ProcessedSignalRecord` (types/index.ts:71-78). -/
structure ProcessedSignalRecord where
  subscriberAddress : String
  signalId : String
  influencerName : String
  finalPnL : String
  processedAt : Int
  signalGenerationDate : Int
deriving DecidableEq

/-- Model of `UserSignalSummary` (types/index.ts:80-86). -/
structure UserSignalSummary where
  subscriberAddress : String
  totalSignalsProcessed : Nat
  totalPnLPercentage : ℚ
  lastProcessedAt : Int
  lastSignalDate : Option Int
deriving DecidableEq

/-- Per-subscriber entry of the map returned by `processAllInfluencerSignals`
(signalProcessor.ts:169). -/
structure SubscriberResult where
  signals : List ProcessedSignal
  totalSumPnL : String
  newSignalsCount : Nat
deriving DecidableEq

/-- The external MongoDB state the core reads and writes, made explicit: the
`processed_signals` collection, the `user_signal_summary` collection, the clock
(`new Date()` at write time), and two flags that inject the external failures whose
handling §7 of the spec describes (a throwing ledger read, a throw inside
`filterUnprocessedSignals`'s `try` block). -/
structure Database where
  processedSignals : List ProcessedSignalRecord
  summaries : List UserSignalSummary
  ledgerReadFails : Bool
  filterFails : Bool
  now : Int
deriving DecidableEq

/-! ### DatabaseManager (src/src/utils/database.ts) -/

namespace DatabaseManager

/-- The successful ledger read: `processed_signals.find({ subscriberAddress })` projected to
`signalId` strings (database.ts:152-158). -/
def processedIdsFor (db : Database) (subscriberAddress : String) : List String :=
  (db.processedSignals.filter fun r => r.subscriberAddress == subscriberAddress).map
    (fun r => r.signalId)

/-- Body of `getProcessedSignalIds` before its catch-all; `Database.ledgerReadFails`
injects the thrown lookup error. -/
def getProcessedSignalIdsCore (db : Database) (subscriberAddress : String) :
    Except String (List String) :=
  if db.ledgerReadFails then .error "lookup failed"
  else .ok (processedIdsFor db subscriberAddress)

/-- Model of `getProcessedSignalIds` (database.ts:147-180): returns the empty set when the lookup
errors. -/
def getProcessedSignalIds (db : Database) (subscriberAddress : String) : List String :=
  match getProcessedSignalIdsCore db subscriberAddress with
  | .ok signalIds => signalIds
  | .error _ => []

/-- Model of `getUserSignalSummary` (database.ts:264-272): `findOne({ subscriberAddress })`. -/
def getUserSignalSummary (db : Database) (subscriberAddress : String) :
    Option UserSignalSummary :=
  db.summaries.find? fun s => s.subscriberAddress == subscriberAddress

/-- Mongo `updateOne`: rewrite the first matching summary document. -/
def updateFirstSummary (f : UserSignalSummary → UserSignalSummary) (subscriberAddress : String) :
    List UserSignalSummary → List UserSignalSummary
  | [] => []
  | s :: rest =>
    if s.subscriberAddress == subscriberAddress then f s :: rest
    else s :: updateFirstSummary f subscriberAddress rest

/-- Model of `markSignalsAsProcessed` (database.ts:185-259): no-op on an empty batch; otherwise
`insertMany` the records, then upsert the per-subscriber summary:
`$inc totalSignalsProcessed`/`totalPnLPercentage` (batch sum, NaN parsed as 0) and
`$set lastProcessedAt`/`lastSignalDate` (`Math.max` of the batch generation dates). -/
def markSignalsAsProcessed (db : Database) (subscriberAddress : String)
    (processedSignals : List ProcessedSignalRecord) : Database :=
  match processedSignals with
  | [] => db
  | r0 :: rest =>
    let batch := r0 :: rest
    let totalPnLPercentage :=
      batch.foldl (fun sum r => qadd sum ((parsePnL r.finalPnL).getD 0)) 0
    let latestSignalDate :=
      rest.foldl (fun m r => max m r.signalGenerationDate) r0.signalGenerationDate
    let upd (s : UserSignalSummary) : UserSignalSummary :=
      { s with
        totalSignalsProcessed := s.totalSignalsProcessed + batch.length
        totalPnLPercentage := qadd s.totalPnLPercentage totalPnLPercentage
        lastProcessedAt := db.now
        lastSignalDate := some latestSignalDate }
    let summaries :=
      if db.summaries.any (fun s => s.subscriberAddress == subscriberAddress) then
        updateFirstSummary upd subscriberAddress db.summaries
      else
        db.summaries ++
          [{ subscriberAddress := subscriberAddress
             totalSignalsProcessed := batch.length
             totalPnLPercentage := totalPnLPercentage
             lastProcessedAt := db.now
             lastSignalDate := some latestSignalDate }]
    { db with processedSignals := db.processedSignals ++ batch, summaries := summaries }

end DatabaseManager

/-! ### Signal processor (src/src/utils/signalProcessor.ts) -/

namespace SignalProcessor

/-- Seven days in milliseconds, `7 * 24 * 60 * 60 * 1000` (signalProcessor.ts:14). -/
def sevenDaysMs : Int := 7 * 24 * 60 * 60 * 1000

/-- Model of `processSubscriberSignals` (signalProcessor.ts:8-34): keep the signals generated
strictly after `subscribedAt` and at most `subscribedAt + 7 days`, mapped to
`ProcessedSignal` records. -/
def processSubscriberSignals (subscriber : Subscriber) (influencer : Influencer)
    (signals : List BacktestingSignal) : List ProcessedSignal :=
  let subscribedAt := subscriber.subscribedAt
  let sevenDaysAfterSubscription := subscribedAt + sevenDaysMs
  signals.foldr
    (fun signal processedSignals =>
      if subscribedAt < signal.generatedAt ∧
          signal.generatedAt ≤ sevenDaysAfterSubscription then
        { subscriberAddress := subscriber.address
          influencerName := influencer.name
          signalId := signal.sid
          finalPnL := signal.finalPnL
          signalGenerationDate := signal.generatedAt
          subscribedAt := subscribedAt } :: processedSignals
      else processedSignals)
    []

/-- Model of `calculateTotalSumPnL` (signalProcessor.ts:39-66): `"0%"` for an empty list, loop
accumulating the parseable P&L values and their count, `"0%"` when none parsed, otherwise
`toFixed(2)` of the total followed by `%`. -/
def calculateTotalSumPnL (signals : List ProcessedSignal) : String :=
  if signals.length = 0 then "0%"
  else
    let acc := signals.foldl
      (fun (acc : ℚ × Nat) signal =>
        match parsePnL signal.finalPnL with
        | some pnlValue => (qadd acc.1 pnlValue, acc.2 + 1)
        | none => acc)
      (0, 0)
    if acc.2 = 0 then "0%" else toFixed2 acc.1 ++ "%"

/-- Model of `filterValidSignals` (signalProcessor.ts:90-107): drop signals whose `"Final P&L"` is
falsy/empty or does not parse (`isNaN`). `backtesting_done` is not consulted. -/
def filterValidSignals (signals : List BacktestingSignal) : List BacktestingSignal :=
  signals.filter fun signal =>
    if signal.finalPnL = "" then false
    else (parsePnL signal.finalPnL).isSome

/-- Body of `filterUnprocessedSignals` before its catch-all (signalProcessor.ts:112-160);
`Database.filterFails` injects a throw inside the `try` block. -/
def filterUnprocessedSignalsCore (db : Database) (subscriberAddress : String)
    (signals : List BacktestingSignal) : Except String (List BacktestingSignal) :=
  if db.filterFails then .error "filtering failed"
  else
    let processedSignalIds := DatabaseManager.getProcessedSignalIds db subscriberAddress
    .ok (signals.filter fun signal => !(processedSignalIds.contains signal.sid))

/-- Model of `filterUnprocessedSignals` (signalProcessor.ts:112-160): returns all signals when the
body fails. -/
def filterUnprocessedSignals (db : Database) (subscriberAddress : String)
    (signals : List BacktestingSignal) : List BacktestingSignal :=
  match filterUnprocessedSignalsCore db subscriberAddress signals with
  | .ok unprocessedSignals => unprocessedSignals
  | .error _ => signals

/-- Body of the subscriber loop of `processAllInfluencerSignals`
(signalProcessor.ts:186-257): window-filter the valid signals, drop already-processed
ones, and if anything is left compute the cumulative total, emit the `subscriberResults`
entry and write the batch through `markSignalsAsProcessed`. The emitted entry and the
database write happen together, as in the source (the entry is set just before the
write). `(parsePnL newSignalsPnL).getD 0`: the string produced by `calculateTotalSumPnL`
always parses (`parse_calculateTotalSumPnL` below), so the default is never taken. -/
def processOneSubscriber (db : Database) (influencer : Influencer)
    (validSignals : List BacktestingSignal) (subscriber : Subscriber) :
    Option (String × SubscriberResult) × Database :=
  let subscribedAt := subscriber.subscribedAt
  let sevenDaysAfterSubscription := subscribedAt + sevenDaysMs
  let relevantSignals := validSignals.filter fun signal =>
    decide (subscribedAt < signal.generatedAt ∧
      signal.generatedAt ≤ sevenDaysAfterSubscription)
  if relevantSignals.length = 0 then (none, db)
  else
    let unprocessedSignals := filterUnprocessedSignals db subscriber.address relevantSignals
    if unprocessedSignals.length = 0 then (none, db)
    else
      let subscriberSignals := processSubscriberSignals subscriber influencer unprocessedSignals
      if subscriberSignals.length = 0 then (none, db)
      else
        let existingSummary := DatabaseManager.getUserSignalSummary db subscriber.address
        let existingTotalPnL := match existingSummary with
          | some s => s.totalPnLPercentage
          | none => 0
        let newSignalsPnL := calculateTotalSumPnL subscriberSignals
        let newSignalsPnLValue := (parsePnL newSignalsPnL).getD 0
        let cumulativeTotalPnL := qadd existingTotalPnL newSignalsPnLValue
        let cumulativeTotalPnLString := toFixed2 cumulativeTotalPnL ++ "%"
        let result : SubscriberResult :=
          { signals := subscriberSignals
            totalSumPnL := cumulativeTotalPnLString
            newSignalsCount := subscriberSignals.length }
        let processedSignalRecords : List ProcessedSignalRecord := subscriberSignals.map
          fun signal =>
            { subscriberAddress := signal.subscriberAddress
              signalId := signal.signalId
              influencerName := signal.influencerName
              finalPnL := signal.finalPnL
              processedAt := db.now
              signalGenerationDate := signal.signalGenerationDate }
        let db' := DatabaseManager.markSignalsAsProcessed db subscriber.address
          processedSignalRecords
        (some (subscriber.address, result), db')

/-- The subscriber loop (signalProcessor.ts:186-258), threading the database state. -/
def processSubscribersLoop (influencer : Influencer) (validSignals : List BacktestingSignal) :
    List Subscriber → Database → List (String × SubscriberResult) × Database
  | [], db => ([], db)
  | subscriber :: rest, db =>
    let step := processOneSubscriber db influencer validSignals subscriber
    let tail := processSubscribersLoop influencer validSignals rest step.2
    ((match step.1 with | some entry => [entry] | none => []) ++ tail.1, tail.2)

/-- Model of `signalsMap.get(influencer.name) || []` (signalProcessor.ts:173). -/
def lookupSignals (signalsMap : List (String × List BacktestingSignal)) (name : String) :
    List BacktestingSignal :=
  match signalsMap.find? (fun p => p.1 == name) with
  | some p => p.2
  | none => []

/-- The influencer loop of `processAllInfluencerSignals` (signalProcessor.ts:172-259). -/
def processInfluencersLoop :
    List Influencer → List (String × List BacktestingSignal) → Database →
      List (String × SubscriberResult) × Database
  | [], _, db => ([], db)
  | influencer :: rest, signalsMap, db =>
    let influencerSignals := lookupSignals signalsMap influencer.name
    let validSignals := filterValidSignals influencerSignals
    let this := processSubscribersLoop influencer validSignals influencer.subscribers db
    let further := processInfluencersLoop rest signalsMap this.2
    (this.1 ++ further.1, further.2)

/-- Model of `processAllInfluencerSignals` (signalProcessor.ts:166-262). The returned list collects
the `subscriberResults.set` calls in order (a JS `Map` keeps the last value per key; the
theorems below use only per-key emptiness or the emitted value). -/
def processAllInfluencerSignals (influencers : List Influencer)
    (signalsMap : List (String × List BacktestingSignal)) (db : Database) :
    List (String × SubscriberResult) × Database :=
  processInfluencersLoop influencers signalsMap db

end SignalProcessor

/-! ### Stake exit processor (src/unnamed/part_000) -/

namespace StakeExit

/-- Model of `filterValidSignals` (part_000:7-24); textually identical to
`SignalProcessor.filterValidSignals`. -/
def filterValidSignals (signals : List BacktestingSignal) : List BacktestingSignal :=
  signals.filter fun signal =>
    if signal.finalPnL = "" then false
    else (parsePnL signal.finalPnL).isSome

/-- Model of `getSignalsInRange` (part_000:29-38): `signalDate >= fromDate && signalDate <= toDate`,
both bounds inclusive. -/
def getSignalsInRange (signals : List BacktestingSignal) (fromDate toDate : Int) :
    List BacktestingSignal :=
  signals.filter fun signal =>
    decide (fromDate ≤ signal.generatedAt ∧ signal.generatedAt ≤ toDate)

/-- Model of `calculateTotalSumPnL` (part_000:43-70); same algorithm as the signal-processor
variant, over raw `BacktestingSignal`s. -/
def calculateTotalSumPnL (signals : List BacktestingSignal) : String :=
  if signals.length = 0 then "0%"
  else
    let acc := signals.foldl
      (fun (acc : ℚ × Nat) signal =>
        match parsePnL signal.finalPnL with
        | some pnlValue => (qadd acc.1 pnlValue, acc.2 + 1)
        | none => acc)
      (0, 0)
    if acc.2 = 0 then "0%" else toFixed2 acc.1 ++ "%"

/-- Model of `calculateFinalTradeValue` (part_000:76-94): `stakeAmount` (in ETH) is scaled by `1e18`
to wei, the trading amount is 2% of that, the P&L percentage is applied, and the result is
floored and clamped at 0 (the `isNaN` branch skips the P&L application and the clamp). -/
def calculateFinalTradeValue (stakeAmount : ℚ) (totalPnLPercentage : String) : String :=
  let stakeAmountWei := qmul stakeAmount 1000000000000000000
  let tradingAmountWei := ratDiv (qmul stakeAmountWei 2) 100
  match parsePnL totalPnLPercentage with
  | none => intStr ⌊tradingAmountWei⌋
  | some pnlValue =>
    let finalValueWei := qadd tradingAmountWei (ratDiv (qmul tradingAmountWei pnlValue) 100)
    intStr (max 0 ⌊finalValueWei⌋)

end StakeExit

/-! ### Blockchain manager (src/src/utils/blockchain.ts) -/

namespace Blockchain

/-- Model of `calculateNewTradeValue` (blockchain.ts:166-202): positive P&L adds
`floor(tradingAmount * pnl / 100)`, negative P&L subtracts `floor(tradingAmount * |pnl| / 100)`
clamped at `0n`, zero or unparseable (`NaN`) P&L returns the amount unchanged (the `NaN`
case falls through both comparisons to the else branch). -/
def calculateNewTradeValue (tradingAmount : Int) (pnlPercentage : String) : Int :=
  match parsePnL pnlPercentage with
  | none => tradingAmount
  | some pnlValue =>
    if 0 < pnlValue then
      tradingAmount + ⌊ratDiv (qmul (tradingAmount : ℚ) pnlValue) 100⌋
    else if pnlValue < 0 then
      let newValue := tradingAmount - ⌊ratDiv (qmul (tradingAmount : ℚ) (qabs pnlValue)) 100⌋
      if newValue < 0 then 0 else newValue
    else tradingAmount

end Blockchain

/-! ### Numeral round-trip lemmas -/

/-- Value of a little-endian digit list. -/
def valLE : List Nat → Nat
  | [] => 0
  | d :: ds => d + 10 * valLE ds

theorem natDigitsRevAux_valLE :
    ∀ (fuel n : Nat), n ≤ fuel → valLE (natDigitsRevAux fuel n) = n
  | 0, n, h => by
    have : n = 0 := Nat.le_zero.mp h
    subst this; rfl
  | fuel + 1, n, h => by
    rw [natDigitsRevAux]
    by_cases hn : n = 0
    · simp [hn, valLE]
    · rw [if_neg hn, valLE]
      have hdiv : n / 10 ≤ fuel := by
        have : n / 10 < n := Nat.div_lt_self (Nat.pos_of_ne_zero hn) (by norm_num)
        omega
      rw [natDigitsRevAux_valLE fuel (n / 10) hdiv]
      omega

theorem natDigitsRevAux_lt_ten :
    ∀ (fuel n d : Nat), d ∈ natDigitsRevAux fuel n → d < 10
  | 0, _, d, h => by simp [natDigitsRevAux] at h
  | fuel + 1, n, d, h => by
    rw [natDigitsRevAux] at h
    by_cases hn : n = 0
    · simp [hn] at h
    · rw [if_neg hn] at h
      rcases List.mem_cons.mp h with h | h
      · omega
      · exact natDigitsRevAux_lt_ten fuel (n / 10) d h

theorem digitVal_digitChar (d : Nat) (h : d < 10) : digitVal (digitChar d) = d := by
  interval_cases d <;> rfl

theorem isDigitCh_digitChar (d : Nat) (h : d < 10) : isDigitCh (digitChar d) = true := by
  interval_cases d <;> rfl

theorem digitsVal_append_singleton (xs : List Char) (c : Char) :
    digitsVal (xs ++ [c]) = 10 * digitsVal xs + digitVal c := by
  simp [digitsVal, List.foldl_append]

theorem digitsVal_reverse_map (l : List Nat) (h : ∀ d ∈ l, d < 10) :
    digitsVal (l.reverse.map digitChar) = valLE l := by
  induction l with
  | nil => rfl
  | cons d ds ih =>
    rw [List.reverse_cons, List.map_append, List.map_singleton, digitsVal_append_singleton,
      ih (fun x hx => h x (List.mem_cons_of_mem _ hx)),
      digitVal_digitChar d (h d (List.mem_cons_self _ _)), valLE]
    omega

theorem natDigitsRev_valLE (n : Nat) : valLE (natDigitsRev n) = n :=
  natDigitsRevAux_valLE (n + 1) n (Nat.le_succ n)

theorem natDigitsRev_lt_ten (n d : Nat) (h : d ∈ natDigitsRev n) : d < 10 :=
  natDigitsRevAux_lt_ten (n + 1) n d h

theorem digitsVal_natChars (n : Nat) : digitsVal (natChars n) = n := by
  rw [natChars]
  by_cases h : n = 0
  · subst h; rfl
  · rw [if_neg h, digitsVal_reverse_map (natDigitsRev n) (natDigitsRev_lt_ten n),
      natDigitsRev_valLE]

theorem natChars_all_digits (n : Nat) : ∀ c ∈ natChars n, isDigitCh c = true := by
  intro c hc
  rw [natChars] at hc
  by_cases h : n = 0
  · rw [if_pos h] at hc
    simp at hc
    subst hc; rfl
  · rw [if_neg h] at hc
    rcases List.mem_map.mp (by simpa using hc) with ⟨d, hd, rfl⟩
    exact isDigitCh_digitChar d (natDigitsRev_lt_ten n d hd)

theorem natChars_ne_nil (n : Nat) : natChars n ≠ [] := by
  rw [natChars]
  by_cases h : n = 0
  · simp [h]
  · rw [if_neg h, natDigitsRev, natDigitsRevAux, if_neg h]
    simp

theorem digitsVal_pad2 (k : Nat) (h : k < 100) : digitsVal (pad2 k) = k := by
  rw [pad2]
  by_cases hk : k < 10
  · rw [if_pos hk]
    have h0 : digitVal '0' = 0 := rfl
    simp [digitsVal, digitVal_digitChar k hk, h0]
  · rw [if_neg hk]
    have h1 : k / 10 < 10 := by omega
    have h2 : k % 10 < 10 := Nat.mod_lt _ (by norm_num)
    simp [digitsVal, digitVal_digitChar _ h1, digitVal_digitChar _ h2]
    omega

theorem pad2_all_digits (k : Nat) (h : k < 100) : ∀ c ∈ pad2 k, isDigitCh c = true := by
  intro c hc
  rw [pad2] at hc
  by_cases hk : k < 10
  · rw [if_pos hk] at hc
    rcases List.mem_cons.mp hc with rfl | hc
    · rfl
    · simp at hc
      subst hc; exact isDigitCh_digitChar k hk
  · rw [if_neg hk] at hc
    have h1 : k / 10 < 10 := by omega
    have h2 : k % 10 < 10 := Nat.mod_lt _ (by norm_num)
    rcases List.mem_cons.mp hc with rfl | hc
    · exact isDigitCh_digitChar _ h1
    · simp at hc
      subst hc; exact isDigitCh_digitChar _ h2

theorem pad2_length (k : Nat) : (pad2 k).length = 2 := by
  rw [pad2]; by_cases hk : k < 10 <;> simp [hk]

theorem takeWhile_all {p : Char → Bool} :
    ∀ (l : List Char), (∀ c ∈ l, p c = true) → l.takeWhile p = l
  | [], _ => rfl
  | c :: cs, h => by
    rw [List.takeWhile_cons, h c (List.mem_cons_self _ _), if_pos rfl,
      takeWhile_all cs (fun x hx => h x (List.mem_cons_of_mem _ hx))]

theorem takeWhile_all_append {p : Char → Bool} :
    ∀ (l1 l2 : List Char), (∀ c ∈ l1, p c = true) →
      (l1 ++ l2).takeWhile p = l1 ++ l2.takeWhile p
  | [], l2, _ => rfl
  | c :: cs, l2, h => by
    rw [List.cons_append, List.takeWhile_cons, h c (List.mem_cons_self _ _), if_pos rfl,
      takeWhile_all_append cs l2 (fun x hx => h x (List.mem_cons_of_mem _ hx)),
      List.cons_append]

theorem dropWhile_all_append {p : Char → Bool} :
    ∀ (l1 l2 : List Char), (∀ c ∈ l1, p c = true) →
      (l1 ++ l2).dropWhile p = l2.dropWhile p
  | [], _, _ => rfl
  | c :: cs, l2, h => by
    rw [List.cons_append, List.dropWhile_cons, h c (List.mem_cons_self _ _)]
    simp only [if_pos rfl]
    exact dropWhile_all_append cs l2 (fun x hx => h x (List.mem_cons_of_mem _ hx))

theorem isDigitCh_dot : isDigitCh '.' = false := rfl

theorem ne_of_isDigitCh {c d : Char} (h : isDigitCh c = true) (hd : isDigitCh d = false) :
    c ≠ d := by
  intro hcd
  rw [hcd, hd] at h
  cases h

theorem jsParseUnsigned_body (a b : Nat) (hb : b < 100) (neg : Bool) :
    jsParseUnsigned (natChars a ++ '.' :: pad2 b) neg =
      some (if neg then -(((100 * a + b : Nat) : ℚ) / 100)
            else ((100 * a + b : Nat) : ℚ) / 100) := by
  have hdigits := natChars_all_digits a
  have htake : (natChars a ++ '.' :: pad2 b).takeWhile isDigitCh = natChars a := by
    rw [takeWhile_all_append _ _ hdigits, List.takeWhile_cons, isDigitCh_dot]
    simp
  have hdrop : (natChars a ++ '.' :: pad2 b).dropWhile isDigitCh = '.' :: pad2 b := by
    rw [dropWhile_all_append _ _ hdigits, List.dropWhile_cons, isDigitCh_dot]
    simp
  have hfrac : (pad2 b).takeWhile isDigitCh = pad2 b := takeWhile_all _ (pad2_all_digits b hb)
  have hne : (natChars a).isEmpty = false := by
    cases h : natChars a with
    | nil => exact absurd h (natChars_ne_nil a)
    | cons c cs => rfl
  rw [jsParseUnsigned]
  simp only [htake, hdrop, hfrac, hne, Bool.false_and, Bool.false_eq_true, if_false,
    digitsVal_natChars, digitsVal_pad2 b hb, pad2_length]
  congr 1
  have harith : qadd (a : ℚ) (mkRat b (10 ^ 2)) = ((100 * a + b : Nat) : ℚ) / 100 := by
    rw [qadd_eq, Rat.mkRat_eq_div]
    push_cast
    ring
  rw [harith]

theorem beq_space_false {c : Char} (h : isDigitCh c = true) : (c == ' ') = false := by
  have : c ≠ ' ' := ne_of_isDigitCh h rfl
  exact beq_eq_false_iff_ne.mpr this

theorem jsParseFloatChars_cons_dash (rest : List Char) :
    jsParseFloatChars ('-' :: rest) = jsParseUnsigned rest true := rfl

theorem jsParseFloatChars_cons_digit {c : Char} (h : isDigitCh c = true) (rest : List Char) :
    jsParseFloatChars (c :: rest) = jsParseUnsigned (c :: rest) false := by
  rw [jsParseFloatChars]
  simp only [List.dropWhile_cons, beq_space_false h, Bool.false_eq_true, if_false]
  rw [if_neg (ne_of_isDigitCh (d := '-') h rfl), if_neg (ne_of_isDigitCh (d := '+') h rfl)]

/-- The format/parse round trip at the heart of the pipeline: parsing the `toFixed(2)`
rendering of `q` recovers exactly `q` rounded to two decimals. -/
theorem jsParseFloatChars_toFixed2 (q : ℚ) :
    jsParseFloatChars (toFixed2Chars q) = some (round2 q) := by
  have hb : fixedNum q % 100 < 100 := Nat.mod_lt _ (by norm_num)
  have hmod : 100 * (fixedNum q / 100) + fixedNum q % 100 = fixedNum q :=
    Nat.div_add_mod (fixedNum q) 100
  by_cases hq : q < 0
  · rw [toFixed2Chars, if_pos hq, List.singleton_append, List.cons_append,
      jsParseFloatChars_cons_dash, jsParseUnsigned_body _ _ hb, round2, if_pos hq, hmod]
    simp
  · rw [toFixed2Chars, if_neg hq, List.nil_append]
    cases hnc : natChars (fixedNum q / 100) with
    | nil => exact absurd hnc (natChars_ne_nil _)
    | cons c cs =>
      have hc : isDigitCh c = true :=
        natChars_all_digits _ c (by rw [hnc]; exact List.mem_cons_self _ _)
      rw [List.cons_append, jsParseFloatChars_cons_digit hc, ← List.cons_append, ← hnc,
        jsParseUnsigned_body _ _ hb, round2, if_neg hq, hmod]
      simp

theorem percent_not_mem_toFixed2Chars (q : ℚ) : ¬ ('%' ∈ toFixed2Chars q) := by
  intro h
  have hb : fixedNum q % 100 < 100 := Nat.mod_lt _ (by norm_num)
  have hdigit : isDigitCh '%' = false := rfl
  rw [toFixed2Chars] at h
  rcases List.mem_append.mp h with h | h
  · rcases List.mem_append.mp h with h | h
    · by_cases hq : q < 0
      · rw [if_pos hq] at h
        simp at h
      · rw [if_neg hq] at h
        simp at h
    · exact absurd (natChars_all_digits _ '%' h) (by rw [hdigit]; exact Bool.false_ne_true)
  · rcases List.mem_cons.mp h with h | h
    · exact absurd h (by decide)
    · exact absurd (pad2_all_digits _ hb '%' h) (by rw [hdigit]; exact Bool.false_ne_true)

theorem stripFirstPercent_append_percent :
    ∀ (l : List Char), '%' ∉ l → stripFirstPercent (l ++ ['%']) = l
  | [], _ => rfl
  | c :: cs, h => by
    rw [List.cons_append, stripFirstPercent,
      if_neg (fun hc => h (by rw [← hc]; exact List.mem_cons_self c cs)),
      stripFirstPercent_append_percent cs (fun hm => h (List.mem_cons_of_mem _ hm))]

/-- Parsing the `toFixed(2)` rendering with a `%` suffix, through `replace('%','')`,
recovers the rounded value. -/
theorem parsePnL_toFixed2_percent (q : ℚ) :
    parsePnL (toFixed2 q ++ "%") = some (round2 q) := by
  have hdata : (toFixed2 q ++ "%").data = toFixed2Chars q ++ ['%'] := rfl
  rw [parsePnL, hdata, stripFirstPercent_append_percent _ (percent_not_mem_toFixed2Chars q),
    jsParseFloatChars_toFixed2]

theorem round2_zero : round2 0 = 0 := by
  have h : fixedNum 0 = 0 := by decide
  rw [round2, if_neg (lt_irrefl 0), h]
  norm_num

theorem parsePnL_zero_percent : parsePnL "0%" = some 0 := by decide

/-! ### Characterization of `calculateTotalSumPnL` -/

/-- The parseable P&L values of a list of percentage strings, in order (spec-side). -/
def pnlValues (strings : List String) : List ℚ := strings.filterMap parsePnL

theorem pnl_foldl_strings (l : List String) (a : ℚ) (k : Nat) :
    l.foldl
      (fun (acc : ℚ × Nat) s =>
        match parsePnL s with
        | some pnlValue => (qadd acc.1 pnlValue, acc.2 + 1)
        | none => acc) (a, k) =
    (a + (pnlValues l).sum, k + (pnlValues l).length) := by
  induction l generalizing a k with
  | nil => simp [pnlValues]
  | cons s rest ih =>
    rw [List.foldl_cons]
    cases hp : parsePnL s with
    | none =>
      simp only [hp]
      rw [ih]
      simp only [pnlValues, List.filterMap_cons, hp]
    | some pnlValue =>
      simp only [hp]
      rw [ih, qadd_eq]
      simp only [pnlValues, List.filterMap_cons, hp, List.sum_cons, List.length_cons,
        Prod.mk.injEq]
      constructor
      · ring
      · omega

theorem pnl_foldl {α : Type} (f : α → String) (l : List α) (a : ℚ) (k : Nat) :
    l.foldl
      (fun (acc : ℚ × Nat) s =>
        match parsePnL (f s) with
        | some pnlValue => (qadd acc.1 pnlValue, acc.2 + 1)
        | none => acc) (a, k) =
    (a + (pnlValues (l.map f)).sum, k + (pnlValues (l.map f)).length) := by
  induction l generalizing a k with
  | nil => simp [pnlValues]
  | cons s rest ih =>
    rw [List.foldl_cons, List.map_cons]
    cases hp : parsePnL (f s) with
    | none =>
      simp only [hp]
      rw [ih]
      simp only [pnlValues, List.filterMap_cons, hp]
    | some pnlValue =>
      simp only [hp]
      rw [ih, qadd_eq]
      simp only [pnlValues, List.filterMap_cons, hp, List.sum_cons, List.length_cons,
        Prod.mk.injEq]
      constructor
      · ring
      · omega

theorem calcTotalSumPnL_eq_processed (signals : List ProcessedSignal) :
    SignalProcessor.calculateTotalSumPnL signals =
      if pnlValues (signals.map fun s => s.finalPnL) = [] then "0%"
      else toFixed2 (pnlValues (signals.map fun s => s.finalPnL)).sum ++ "%" := by
  rw [SignalProcessor.calculateTotalSumPnL]
  by_cases h0 : signals.length = 0
  · rw [if_pos h0]
    rw [List.length_eq_zero] at h0
    subst h0
    simp [pnlValues]
  · rw [if_neg h0]
    simp only [pnl_foldl (fun s => s.finalPnL) signals 0 0, zero_add, Nat.zero_add]
    by_cases hv : pnlValues (signals.map fun s => s.finalPnL) = []
    · rw [if_pos (by rw [hv]; rfl), if_pos hv]
    · rw [if_neg (fun hl => hv (List.length_eq_zero.mp hl)), if_neg hv]

theorem calcTotalSumPnL_eq_signals (signals : List BacktestingSignal) :
    StakeExit.calculateTotalSumPnL signals =
      if pnlValues (signals.map fun s => s.finalPnL) = [] then "0%"
      else toFixed2 (pnlValues (signals.map fun s => s.finalPnL)).sum ++ "%" := by
  rw [StakeExit.calculateTotalSumPnL]
  by_cases h0 : signals.length = 0
  · rw [if_pos h0]
    rw [List.length_eq_zero] at h0
    subst h0
    simp [pnlValues]
  · rw [if_neg h0]
    simp only [pnl_foldl (fun s => s.finalPnL) signals 0 0, zero_add, Nat.zero_add]
    by_cases hv : pnlValues (signals.map fun s => s.finalPnL) = []
    · rw [if_pos (by rw [hv]; rfl), if_pos hv]
    · rw [if_neg (fun hl => hv (List.length_eq_zero.mp hl)), if_neg hv]

/-- The output of `calculateTotalSumPnL` (signal-processor variant) always parses back, to
the two-decimal rounding of the exact sum of the parseable values. -/
theorem parsePnL_calcTotalSumPnL_processed (signals : List ProcessedSignal) :
    parsePnL (SignalProcessor.calculateTotalSumPnL signals) =
      some (round2 (pnlValues (signals.map fun s => s.finalPnL)).sum) := by
  rw [calcTotalSumPnL_eq_processed]
  by_cases hv : pnlValues (signals.map fun s => s.finalPnL) = []
  · rw [if_pos hv, hv, parsePnL_zero_percent, List.sum_nil, round2_zero]
  · rw [if_neg hv, parsePnL_toFixed2_percent]

/-- Same round trip for the stake-exit variant of `calculateTotalSumPnL`. -/
theorem parsePnL_calcTotalSumPnL_signals (signals : List BacktestingSignal) :
    parsePnL (StakeExit.calculateTotalSumPnL signals) =
      some (round2 (pnlValues (signals.map fun s => s.finalPnL)).sum) := by
  rw [calcTotalSumPnL_eq_signals]
  by_cases hv : pnlValues (signals.map fun s => s.finalPnL) = []
  · rw [if_pos hv, hv, parsePnL_zero_percent, List.sum_nil, round2_zero]
  · rw [if_neg hv, parsePnL_toFixed2_percent]

/-! ### Shared structural lemmas about the pipeline -/

/-- Characterization: `processSubscriberSignals` is the window filter followed by the record construction. -/
theorem processSubscriberSignals_eq (subscriber : Subscriber) (influencer : Influencer)
    (signals : List BacktestingSignal) :
    SignalProcessor.processSubscriberSignals subscriber influencer signals =
      (signals.filter fun s =>
        decide (subscriber.subscribedAt < s.generatedAt ∧
          s.generatedAt ≤ subscriber.subscribedAt + SignalProcessor.sevenDaysMs)).map
        fun s =>
          { subscriberAddress := subscriber.address
            influencerName := influencer.name
            signalId := s.sid
            finalPnL := s.finalPnL
            signalGenerationDate := s.generatedAt
            subscribedAt := subscriber.subscribedAt } := by
  induction signals with
  | nil => rfl
  | cons s rest ih =>
    simp only [SignalProcessor.processSubscriberSignals, List.foldr_cons] at ih ⊢
    by_cases h : subscriber.subscribedAt < s.generatedAt ∧
        s.generatedAt ≤ subscriber.subscribedAt + SignalProcessor.sevenDaysMs
    · rw [if_pos h, ih, List.filter_cons, if_pos (by simpa using h), List.map_cons]
    · rw [if_neg h, ih, List.filter_cons, if_neg (by simpa using h)]

/-- What the original and the updated database agree on, seen from one subscriber address:
their ledger rows, their summary row, and the failure-injection flags. -/
def AddrView (db db' : Database) (addr : String) : Prop :=
  db'.processedSignals.filter (fun r => r.subscriberAddress == addr) =
    db.processedSignals.filter (fun r => r.subscriberAddress == addr) ∧
  DatabaseManager.getUserSignalSummary db' addr = DatabaseManager.getUserSignalSummary db addr ∧
  db'.ledgerReadFails = db.ledgerReadFails ∧
  db'.filterFails = db.filterFails

theorem AddrView.refl (db : Database) (addr : String) : AddrView db db addr :=
  ⟨rfl, rfl, rfl, rfl⟩

theorem AddrView.trans {db1 db2 db3 : Database} {addr : String}
    (h1 : AddrView db1 db2 addr) (h2 : AddrView db2 db3 addr) : AddrView db1 db3 addr :=
  ⟨h2.1.trans h1.1, h2.2.1.trans h1.2.1, h2.2.2.1.trans h1.2.2.1, h2.2.2.2.trans h1.2.2.2⟩

theorem AddrView.idsFor {db db' : Database} {addr : String} (h : AddrView db db' addr) :
    DatabaseManager.processedIdsFor db' addr = DatabaseManager.processedIdsFor db addr := by
  rw [DatabaseManager.processedIdsFor, DatabaseManager.processedIdsFor, h.1]

theorem find?_updateFirstSummary (f : UserSignalSummary → UserSignalSummary)
    (a' addr : String) (hne : a' ≠ addr)
    (hf : ∀ s, (f s).subscriberAddress = s.subscriberAddress) :
    ∀ l : List UserSignalSummary,
      (DatabaseManager.updateFirstSummary f a' l).find?
          (fun s => s.subscriberAddress == addr) =
        l.find? (fun s => s.subscriberAddress == addr)
  | [] => rfl
  | s :: rest => by
    rw [DatabaseManager.updateFirstSummary]
    by_cases ha : s.subscriberAddress == a'
    · rw [if_pos ha]
      have hpred : ((f s).subscriberAddress == addr) = (s.subscriberAddress == addr) := by
        rw [hf s]
      have hsa : s.subscriberAddress = a' := by simpa using ha
      have hna : (s.subscriberAddress == addr) = false := by
        rw [hsa]
        exact beq_eq_false_iff_ne.mpr hne
      rw [List.find?_cons, List.find?_cons, hpred, hna]
    · rw [if_neg ha, List.find?_cons, List.find?_cons]
      by_cases hp : (s.subscriberAddress == addr)
      · rw [hp]
      · rw [Bool.of_not_eq_true hp]
        exact find?_updateFirstSummary f a' addr hne hf rest

theorem find?_append_none {α : Type} (p : α → Bool) (l1 l2 : List α)
    (h2 : l2.find? p = none) : (l1 ++ l2).find? p = l1.find? p := by
  induction l1 with
  | nil => simpa using h2
  | cons x rest ih =>
    rw [List.cons_append, List.find?_cons, List.find?_cons]
    by_cases hp : p x
    · rw [hp]
    · rw [Bool.of_not_eq_true hp]
      exact ih

/-- A ledger write for another subscriber leaves this subscriber's view unchanged. -/
theorem markSignals_preserves (db : Database) (a' addr : String)
    (records : List ProcessedSignalRecord) (hne : a' ≠ addr)
    (hrec : ∀ r ∈ records, r.subscriberAddress = a') :
    AddrView db (DatabaseManager.markSignalsAsProcessed db a' records) addr := by
  cases records with
  | nil => exact AddrView.refl db addr
  | cons r0 rest =>
    have hfilter : ∀ l : List ProcessedSignalRecord, (∀ r ∈ l, r.subscriberAddress = a') →
        l.filter (fun r => r.subscriberAddress == addr) = [] := by
      intro l hl
      rw [List.filter_eq_nil_iff]
      intro r hr
      rw [hl r hr]
      simp [beq_eq_false_iff_ne.mpr hne]
    refine ⟨?_, ?_, rfl, rfl⟩
    · rw [DatabaseManager.markSignalsAsProcessed]
      simp only [List.filter_append, hfilter (r0 :: rest) hrec, List.append_nil]
    · rw [DatabaseManager.markSignalsAsProcessed, DatabaseManager.getUserSignalSummary,
        DatabaseManager.getUserSignalSummary]
      by_cases hex : db.summaries.any (fun s => s.subscriberAddress == a')
      · simp only [hex, if_true]
        apply find?_updateFirstSummary
        · exact hne
        · intro s
          rfl
      · simp only [hex, if_false]
        refine find?_append_none _ _ _ ?_
        rw [List.find?_cons]
        have : (a' == addr) = false := beq_eq_false_iff_ne.mpr hne
        rw [this]
        rfl

/-- A subscriber whose window-relevant valid signals are all already in the ledger is
skipped entirely: no result, no database change. -/
theorem processOneSubscriber_skip (db : Database) (influencer : Influencer)
    (validSignals : List BacktestingSignal) (subscriber : Subscriber)
    (hledger : db.ledgerReadFails = false) (hfilter : db.filterFails = false)
    (hdone : ∀ s ∈ validSignals,
      subscriber.subscribedAt < s.generatedAt →
      s.generatedAt ≤ subscriber.subscribedAt + SignalProcessor.sevenDaysMs →
      s.sid ∈ DatabaseManager.processedIdsFor db subscriber.address) :
    SignalProcessor.processOneSubscriber db influencer validSignals subscriber =
      (none, db) := by
  rw [SignalProcessor.processOneSubscriber]
  by_cases hrel : (validSignals.filter fun signal =>
      decide (subscriber.subscribedAt < signal.generatedAt ∧
        signal.generatedAt ≤ subscriber.subscribedAt + SignalProcessor.sevenDaysMs)).length = 0
  · rw [if_pos hrel]
  · rw [if_neg hrel]
    have hunproc : SignalProcessor.filterUnprocessedSignals db subscriber.address
        (validSignals.filter fun signal =>
          decide (subscriber.subscribedAt < signal.generatedAt ∧
            signal.generatedAt ≤ subscriber.subscribedAt + SignalProcessor.sevenDaysMs)) = [] := by
      rw [SignalProcessor.filterUnprocessedSignals, SignalProcessor.filterUnprocessedSignalsCore,
        hfilter]
      simp only [Bool.false_eq_true, if_false]
      rw [DatabaseManager.getProcessedSignalIds, DatabaseManager.getProcessedSignalIdsCore,
        hledger]
      simp only [Bool.false_eq_true, if_false]
      rw [List.filter_eq_nil_iff]
      intro s hs
      rcases List.mem_filter.mp hs with ⟨hmem, hcond⟩
      have hcond' := of_decide_eq_true hcond
      have hid := hdone s hmem hcond'.1 hcond'.2
      simp
      exact hid
    rw [hunproc]
    simp

theorem processSubscriberSignals_addr (subscriber : Subscriber) (influencer : Influencer)
    (signals : List BacktestingSignal) :
    ∀ ps ∈ SignalProcessor.processSubscriberSignals subscriber influencer signals,
      ps.subscriberAddress = subscriber.address := by
  intro ps hps
  rw [processSubscriberSignals_eq] at hps
  rcases List.mem_map.mp hps with ⟨s, _, rfl⟩
  rfl

/-- Any run of the subscriber-loop body either leaves the database untouched and emits
nothing, or emits an entry keyed by the subscriber's address and writes a batch of records
all keyed by that address. -/
theorem processOneSubscriber_cases (db : Database) (influencer : Influencer)
    (validSignals : List BacktestingSignal) (subscriber : Subscriber) :
    SignalProcessor.processOneSubscriber db influencer validSignals subscriber = (none, db) ∨
    ∃ result records,
      (∀ r ∈ records, r.subscriberAddress = subscriber.address) ∧
      SignalProcessor.processOneSubscriber db influencer validSignals subscriber =
        (some (subscriber.address, result),
          DatabaseManager.markSignalsAsProcessed db subscriber.address records) := by
  rw [SignalProcessor.processOneSubscriber]
  by_cases h1 : (validSignals.filter fun signal =>
      decide (subscriber.subscribedAt < signal.generatedAt ∧
        signal.generatedAt ≤ subscriber.subscribedAt + SignalProcessor.sevenDaysMs)).length = 0
  · left
    rw [if_pos h1]
  · rw [if_neg h1]
    by_cases h2 : (SignalProcessor.filterUnprocessedSignals db subscriber.address
        (validSignals.filter fun signal =>
          decide (subscriber.subscribedAt < signal.generatedAt ∧
            signal.generatedAt ≤ subscriber.subscribedAt +
              SignalProcessor.sevenDaysMs))).length = 0
    · left
      rw [if_pos h2]
    · rw [if_neg h2]
      by_cases h3 : (SignalProcessor.processSubscriberSignals subscriber influencer
          (SignalProcessor.filterUnprocessedSignals db subscriber.address
            (validSignals.filter fun signal =>
              decide (subscriber.subscribedAt < signal.generatedAt ∧
                signal.generatedAt ≤ subscriber.subscribedAt +
                  SignalProcessor.sevenDaysMs)))).length = 0
      · left
        rw [if_pos h3]
      · right
        rw [if_neg h3]
        refine ⟨_, _, ?_, rfl⟩
        intro r hr
        rcases List.mem_map.mp hr with ⟨ps, hpsmem, rfl⟩
        exact processSubscriberSignals_addr subscriber influencer _ ps hpsmem

theorem processSubscribersLoop_skip (influencer : Influencer)
    (validSignals : List BacktestingSignal) (addr : String) :
    ∀ (subs : List Subscriber) (db : Database),
      db.ledgerReadFails = false → db.filterFails = false →
      (∀ sub ∈ subs, sub.address = addr →
        ∀ s ∈ validSignals,
          sub.subscribedAt < s.generatedAt →
          s.generatedAt ≤ sub.subscribedAt + SignalProcessor.sevenDaysMs →
          s.sid ∈ DatabaseManager.processedIdsFor db addr) →
      (∀ entry ∈ (SignalProcessor.processSubscribersLoop influencer validSignals subs db).1,
        entry.1 ≠ addr) ∧
      AddrView db (SignalProcessor.processSubscribersLoop influencer validSignals subs db).2
        addr
  | [], db, _, _, _ => by
    rw [SignalProcessor.processSubscribersLoop]
    exact ⟨by simp, AddrView.refl db addr⟩
  | sub :: rest, db, hl, hf, hdone => by
    rw [SignalProcessor.processSubscribersLoop]
    have hrest : ∀ sub' ∈ rest, sub'.address = addr →
        ∀ s ∈ validSignals,
          sub'.subscribedAt < s.generatedAt →
          s.generatedAt ≤ sub'.subscribedAt + SignalProcessor.sevenDaysMs →
          s.sid ∈ DatabaseManager.processedIdsFor db addr :=
      fun sub' h' => hdone sub' (List.mem_cons_of_mem _ h')
  -- first decide how the head subscriber behaves
    by_cases hsub : sub.address = addr
    · have hstep : SignalProcessor.processOneSubscriber db influencer validSignals sub =
          (none, db) := by
        apply processOneSubscriber_skip db influencer validSignals sub hl hf
        intro s hs hlt hle
        rw [hsub]
        exact hdone sub (List.mem_cons_self _ _) hsub s hs hlt hle
      rw [hstep]
      have ih := processSubscribersLoop_skip influencer validSignals addr rest db hl hf hrest
      simp only []
      refine ⟨?_, ih.2⟩
      intro entry hentry
      simp only [List.nil_append] at hentry
      exact ih.1 entry hentry
    · rcases processOneSubscriber_cases db influencer validSignals sub with heq |
        ⟨result, records, hrec, heq⟩
      · rw [heq]
        have ih := processSubscribersLoop_skip influencer validSignals addr rest db hl hf hrest
        simp only []
        refine ⟨?_, ih.2⟩
        intro entry hentry
        simp only [List.nil_append] at hentry
        exact ih.1 entry hentry
      · rw [heq]
        have hview : AddrView db
            (DatabaseManager.markSignalsAsProcessed db sub.address records) addr :=
          markSignals_preserves db sub.address addr records hsub hrec
        have hl1 : (DatabaseManager.markSignalsAsProcessed db sub.address
            records).ledgerReadFails = false := by rw [hview.2.2.1, hl]
        have hf1 : (DatabaseManager.markSignalsAsProcessed db sub.address
            records).filterFails = false := by rw [hview.2.2.2, hf]
        have hrest1 : ∀ sub' ∈ rest, sub'.address = addr →
            ∀ s ∈ validSignals,
              sub'.subscribedAt < s.generatedAt →
              s.generatedAt ≤ sub'.subscribedAt + SignalProcessor.sevenDaysMs →
              s.sid ∈ DatabaseManager.processedIdsFor
                (DatabaseManager.markSignalsAsProcessed db sub.address records) addr := by
          intro sub' h' ha s hs hlt hle
          rw [hview.idsFor]
          exact hrest sub' h' ha s hs hlt hle
        have ih := processSubscribersLoop_skip influencer validSignals addr rest
          (DatabaseManager.markSignalsAsProcessed db sub.address records) hl1 hf1 hrest1
        simp only []
        constructor
        · intro entry hentry
          rcases List.mem_append.mp hentry with h | h
          · rcases List.mem_singleton.mp h with rfl
            exact hsub
          · exact ih.1 entry h
        · exact AddrView.trans hview ih.2

theorem processInfluencersLoop_skip (addr : String) :
    ∀ (influencers : List Influencer) (signalsMap : List (String × List BacktestingSignal))
      (db : Database),
      db.ledgerReadFails = false → db.filterFails = false →
      (∀ influencer ∈ influencers, ∀ sub ∈ influencer.subscribers, sub.address = addr →
        ∀ s ∈ SignalProcessor.filterValidSignals
            (SignalProcessor.lookupSignals signalsMap influencer.name),
          sub.subscribedAt < s.generatedAt →
          s.generatedAt ≤ sub.subscribedAt + SignalProcessor.sevenDaysMs →
          s.sid ∈ DatabaseManager.processedIdsFor db addr) →
      (∀ entry ∈ (SignalProcessor.processInfluencersLoop influencers signalsMap db).1,
        entry.1 ≠ addr) ∧
      AddrView db (SignalProcessor.processInfluencersLoop influencers signalsMap db).2 addr
  | [], signalsMap, db, _, _, _ => by
    rw [SignalProcessor.processInfluencersLoop]
    exact ⟨by simp, AddrView.refl db addr⟩
  | influencer :: rest, signalsMap, db, hl, hf, hdone => by
    rw [SignalProcessor.processInfluencersLoop]
    have hthis := processSubscribersLoop_skip influencer
      (SignalProcessor.filterValidSignals
        (SignalProcessor.lookupSignals signalsMap influencer.name)) addr
      influencer.subscribers db hl hf
      (fun sub h' => hdone influencer (List.mem_cons_self _ _) sub h')
    set db1 := (SignalProcessor.processSubscribersLoop influencer
      (SignalProcessor.filterValidSignals
        (SignalProcessor.lookupSignals signalsMap influencer.name))
      influencer.subscribers db).2 with hdb1
    have hl1 : db1.ledgerReadFails = false := by rw [hthis.2.2.2.1, hl]
    have hf1 : db1.filterFails = false := by rw [hthis.2.2.2.2, hf]
    have hrest : ∀ influencer' ∈ rest, ∀ sub ∈ influencer'.subscribers, sub.address = addr →
        ∀ s ∈ SignalProcessor.filterValidSignals
            (SignalProcessor.lookupSignals signalsMap influencer'.name),
          sub.subscribedAt < s.generatedAt →
          s.generatedAt ≤ sub.subscribedAt + SignalProcessor.sevenDaysMs →
          s.sid ∈ DatabaseManager.processedIdsFor db1 addr := by
      intro influencer' h' sub hsubm ha s hs hlt hle
      rw [hthis.2.idsFor]
      exact hdone influencer' (List.mem_cons_of_mem _ h') sub hsubm ha s hs hlt hle
    have ih := processInfluencersLoop_skip addr rest signalsMap db1 hl1 hf1 hrest
    simp only []
    constructor
    · intro entry hentry
      rcases List.mem_append.mp hentry with h | h
      · exact hthis.1 entry h
      · exact ih.1 entry h
    · exact AddrView.trans hthis.2 ih.2

/-! ### Claim theorems -/

/-- C1: if the processed-signal ledger already contains the id of every valid signal in a
subscriber's subscription window (for every influencer in the run), then a second run of
`processAllInfluencerSignals` emits no result entry for that subscriber, leaves the
subscriber's `ProcessedSignalRecord` rows exactly as they were (so no new record is
inserted for them), and leaves the subscriber's `UserSignalSummary` — in particular its
`totalPnLPercentage` — unchanged. -/
theorem C1_idempotent_second_run
    (influencers : List Influencer) (signalsMap : List (String × List BacktestingSignal))
    (db : Database) (addr : String)
    (hledger : db.ledgerReadFails = false) (hfilter : db.filterFails = false)
    (hdone : ∀ influencer ∈ influencers, ∀ sub ∈ influencer.subscribers,
      sub.address = addr →
      ∀ s ∈ SignalProcessor.filterValidSignals
          (SignalProcessor.lookupSignals signalsMap influencer.name),
        sub.subscribedAt < s.generatedAt →
        s.generatedAt ≤ sub.subscribedAt + SignalProcessor.sevenDaysMs →
        s.sid ∈ DatabaseManager.processedIdsFor db addr) :
    (∀ entry ∈ (SignalProcessor.processAllInfluencerSignals influencers signalsMap db).1,
      entry.1 ≠ addr) ∧
    (SignalProcessor.processAllInfluencerSignals influencers signalsMap
        db).2.processedSignals.filter (fun r => r.subscriberAddress == addr) =
      db.processedSignals.filter (fun r => r.subscriberAddress == addr) ∧
    DatabaseManager.getUserSignalSummary
        (SignalProcessor.processAllInfluencerSignals influencers signalsMap db).2 addr =
      DatabaseManager.getUserSignalSummary db addr := by
  have h := processInfluencersLoop_skip addr influencers signalsMap db hledger hfilter hdone
  exact ⟨h.1, h.2.1, h.2.2.1⟩

/-- Witness for C1: a one-influencer, one-subscriber, one-valid-in-window-signal state
whose ledger already records that signal; the second run emits nothing and changes
nothing for the subscriber. -/
theorem C1_idempotent_second_run_witness :
    (∀ entry ∈ (SignalProcessor.processAllInfluencerSignals
        [⟨"alpha", [⟨"bob", "0xSUB", 0⟩]⟩]
        [("alpha", [⟨"sig1", "alpha", 1000, "10%", true⟩])]
        ⟨[⟨"0xSUB", "sig1", "alpha", "10%", 50, 1000⟩],
         [⟨"0xSUB", 1, 10, 50, some 1000⟩], false, false, 99⟩).1,
      entry.1 ≠ "0xSUB") ∧
    (SignalProcessor.processAllInfluencerSignals
        [⟨"alpha", [⟨"bob", "0xSUB", 0⟩]⟩]
        [("alpha", [⟨"sig1", "alpha", 1000, "10%", true⟩])]
        ⟨[⟨"0xSUB", "sig1", "alpha", "10%", 50, 1000⟩],
         [⟨"0xSUB", 1, 10, 50, some 1000⟩], false, false,
         99⟩).2.processedSignals.filter (fun r => r.subscriberAddress == "0xSUB") =
      (⟨[⟨"0xSUB", "sig1", "alpha", "10%", 50, 1000⟩],
        [⟨"0xSUB", 1, 10, 50, some 1000⟩], false, false,
        99⟩ : Database).processedSignals.filter (fun r => r.subscriberAddress == "0xSUB") ∧
    DatabaseManager.getUserSignalSummary
        (SignalProcessor.processAllInfluencerSignals
          [⟨"alpha", [⟨"bob", "0xSUB", 0⟩]⟩]
          [("alpha", [⟨"sig1", "alpha", 1000, "10%", true⟩])]
          ⟨[⟨"0xSUB", "sig1", "alpha", "10%", 50, 1000⟩],
           [⟨"0xSUB", 1, 10, 50, some 1000⟩], false, false, 99⟩).2 "0xSUB" =
      DatabaseManager.getUserSignalSummary
        ⟨[⟨"0xSUB", "sig1", "alpha", "10%", 50, 1000⟩],
         [⟨"0xSUB", 1, 10, 50, some 1000⟩], false, false, 99⟩ "0xSUB" :=
  C1_idempotent_second_run
    [⟨"alpha", [⟨"bob", "0xSUB", 0⟩]⟩]
    [("alpha", [⟨"sig1", "alpha", 1000, "10%", true⟩])]
    ⟨[⟨"0xSUB", "sig1", "alpha", "10%", 50, 1000⟩],
     [⟨"0xSUB", 1, 10, 50, some 1000⟩], false, false, 99⟩ "0xSUB" rfl rfl (by decide)

/-- C2: `processSubscriberSignals` includes a signal iff its generation timestamp is
strictly greater than `subscribedAt` and at most `subscribedAt + 7*24h` (it equals the
half-open window filter followed by the record construction); with `T0 = 0`, a signal
generated exactly at `T0` is excluded, one at exactly `T0 + 7` days is included, and one
at `T0 + 7` days `+ 1` ms is excluded. -/
theorem C2_subscription_window :
    (∀ (subscriber : Subscriber) (influencer : Influencer)
        (signals : List BacktestingSignal),
      SignalProcessor.processSubscriberSignals subscriber influencer signals =
        (signals.filter fun s =>
          decide (subscriber.subscribedAt < s.generatedAt ∧
            s.generatedAt ≤ subscriber.subscribedAt + 7 * 24 * 60 * 60 * 1000)).map
          fun s =>
            { subscriberAddress := subscriber.address
              influencerName := influencer.name
              signalId := s.sid
              finalPnL := s.finalPnL
              signalGenerationDate := s.generatedAt
              subscribedAt := subscriber.subscribedAt }) ∧
    SignalProcessor.processSubscriberSignals ⟨"u", "0xA", 0⟩ ⟨"inf", []⟩
      [⟨"s0", "inf", 0, "1%", true⟩] = [] ∧
    SignalProcessor.processSubscriberSignals ⟨"u", "0xA", 0⟩ ⟨"inf", []⟩
      [⟨"s7", "inf", 604800000, "1%", true⟩] =
      [⟨"0xA", "inf", "s7", "1%", 604800000, 0⟩] ∧
    SignalProcessor.processSubscriberSignals ⟨"u", "0xA", 0⟩ ⟨"inf", []⟩
      [⟨"s8", "inf", 604800001, "1%", true⟩] = [] := by
  refine ⟨?_, by decide, by decide, by decide⟩
  intro subscriber influencer signals
  exact processSubscriberSignals_eq subscriber influencer signals

/-- C3: `getSignalsInRange` keeps a signal iff its generation date `d` satisfies
`A ≤ d ∧ d ≤ B`, closed on both ends: at concrete boundaries, signals generated exactly at
`A` and exactly at `B` are both kept — unlike the subscription window, which at the same
anchor excludes the signal generated exactly at the anchor. -/
theorem C3_stake_window_closed :
    (∀ (signals : List BacktestingSignal) (fromDate toDate : Int) (s : BacktestingSignal),
      s ∈ StakeExit.getSignalsInRange signals fromDate toDate ↔
        s ∈ signals ∧ fromDate ≤ s.generatedAt ∧ s.generatedAt ≤ toDate) ∧
    StakeExit.getSignalsInRange
      [⟨"sa", "inf", 0, "1%", true⟩, ⟨"sb", "inf", 604800000, "2%", true⟩] 0 604800000 =
      [⟨"sa", "inf", 0, "1%", true⟩, ⟨"sb", "inf", 604800000, "2%", true⟩] ∧
    SignalProcessor.processSubscriberSignals ⟨"u", "0xA", 0⟩ ⟨"inf", []⟩
      [⟨"sa", "inf", 0, "1%", true⟩] = [] := by
  refine ⟨?_, by decide, by decide⟩
  intro signals fromDate toDate s
  rw [StakeExit.getSignalsInRange, List.mem_filter]
  simp [and_assoc]

/-- C5 counterexample: a signal whose `backtesting_done` flag is `false` but whose Final
P&L parses is retained by both copies of `filterValidSignals`, so "retained iff
`backtestDone` and the P&L parses" is false as stated. -/
theorem C5_counterexample :
    SignalProcessor.filterValidSignals [⟨"s1", "acct", 0, "5%", false⟩] =
      [⟨"s1", "acct", 0, "5%", false⟩] ∧
    StakeExit.filterValidSignals [⟨"s1", "acct", 0, "5%", false⟩] =
      [⟨"s1", "acct", 0, "5%", false⟩] ∧
    (⟨"s1", "acct", 0, "5%", false⟩ : BacktestingSignal).backtestingDone = false := by
  refine ⟨by decide, by decide, rfl⟩

/-- C5 amended: `filterValidSignals` retains a signal iff its Final P&L string is non-empty
and parses as a number; the `backtesting_done` restriction is applied upstream by the
database queries, not by this function (and the two copies of the function coincide). -/
theorem C5_amended_valid_filter :
    ∀ (signals : List BacktestingSignal) (s : BacktestingSignal),
      (s ∈ SignalProcessor.filterValidSignals signals ↔
        s ∈ signals ∧ s.finalPnL ≠ "" ∧ (parsePnL s.finalPnL).isSome = true) ∧
      StakeExit.filterValidSignals signals = SignalProcessor.filterValidSignals signals := by
  intro signals s
  refine ⟨?_, rfl⟩
  rw [SignalProcessor.filterValidSignals, List.mem_filter]
  by_cases he : s.finalPnL = ""
  · simp [he]
  · simp [he]

/-- C6: `calculateTotalSumPnL` returns `"0%"` for an empty list or when no entry's P&L
parses; otherwise it returns the sum of the parseable values formatted to two decimals
with a `%` suffix (both copies of the function); a malformed entry is skipped without
aborting the computation; concrete checks include a mixed batch whose malformed middle
entry is ignored. -/
theorem C6_sum_formatting :
    (∀ signals : List ProcessedSignal,
      SignalProcessor.calculateTotalSumPnL signals =
        if pnlValues (signals.map fun s => s.finalPnL) = [] then "0%"
        else toFixed2 (pnlValues (signals.map fun s => s.finalPnL)).sum ++ "%") ∧
    (∀ signals : List BacktestingSignal,
      StakeExit.calculateTotalSumPnL signals =
        if pnlValues (signals.map fun s => s.finalPnL) = [] then "0%"
        else toFixed2 (pnlValues (signals.map fun s => s.finalPnL)).sum ++ "%") ∧
    (∀ (bad : ProcessedSignal) (signals : List ProcessedSignal),
      parsePnL bad.finalPnL = none →
      SignalProcessor.calculateTotalSumPnL (bad :: signals) =
        SignalProcessor.calculateTotalSumPnL signals) ∧
    SignalProcessor.calculateTotalSumPnL [] = "0%" ∧
    SignalProcessor.calculateTotalSumPnL [⟨"0xA", "inf", "s1", "oops", 0, 0⟩] = "0%" ∧
    SignalProcessor.calculateTotalSumPnL
      [⟨"0xA", "inf", "s1", "10.5%", 0, 0⟩, ⟨"0xA", "inf", "s2", "oops", 0, 0⟩,
       ⟨"0xA", "inf", "s3", "0.25%", 0, 0⟩] = "10.75%" := by
  refine ⟨calcTotalSumPnL_eq_processed, calcTotalSumPnL_eq_signals, ?_, by decide, by decide,
    by decide⟩
  intro bad signals hbad
  rw [calcTotalSumPnL_eq_processed, calcTotalSumPnL_eq_processed]
  have hsame : pnlValues ((bad :: signals).map fun s => s.finalPnL) =
      pnlValues (signals.map fun s => s.finalPnL) := by
    rw [List.map_cons, pnlValues, List.filterMap_cons, hbad]
    rfl
  rw [hsame]

/-- Witness for C6: a malformed entry (`"oops"`, which `parseFloat` rejects) prepended to a
batch leaves the computed total unchanged. -/
theorem C6_sum_formatting_witness :
    parsePnL (("oops" : String)) = none ∧
    SignalProcessor.calculateTotalSumPnL
      [⟨"0xA", "inf", "s1", "oops", 0, 0⟩, ⟨"0xA", "inf", "s2", "2%", 0, 0⟩] =
      SignalProcessor.calculateTotalSumPnL [⟨"0xA", "inf", "s2", "2%", 0, 0⟩] :=
  ⟨by decide, C6_sum_formatting.2.2.1 ⟨"0xA", "inf", "s1", "oops", 0, 0⟩
    [⟨"0xA", "inf", "s2", "2%", 0, 0⟩] (by decide)⟩

/-- C7: parsing the formatted output of `calculateTotalSumPnL` (stripping `%` and reading
the decimal, exactly as the source's `parseFloat(x.replace('%',''))` does) yields the
direct sum of the parseable entries rounded to two decimals — nothing beyond the
two-decimal rounding is lost, for both copies of the function. -/
theorem C7_format_parse_roundtrip :
    (∀ signals : List ProcessedSignal,
      parsePnL (SignalProcessor.calculateTotalSumPnL signals) =
        some (round2 (pnlValues (signals.map fun s => s.finalPnL)).sum)) ∧
    (∀ signals : List BacktestingSignal,
      parsePnL (StakeExit.calculateTotalSumPnL signals) =
        some (round2 (pnlValues (signals.map fun s => s.finalPnL)).sum)) :=
  ⟨parsePnL_calcTotalSumPnL_processed, parsePnL_calcTotalSumPnL_signals⟩

/-- C4: for every stake amount and parsed P&L percentage `q`, `calculateFinalTradeValue`
returns `max(0, floor(t + t*q/100))` rendered as a decimal string, where
`t = stakeAmount * 1e18 * 2 / 100` is 2% of the stake amount in wei (minor units); that
value is never negative; and the spec's scenario — stake amount 100 with total P&L
`-150%` — yields the string `"0"`. -/
theorem C4_final_trade_value :
    (∀ (stakeAmount : ℚ) (p : String) (q : ℚ),
      parsePnL p = some q →
      StakeExit.calculateFinalTradeValue stakeAmount p =
        intStr (max 0 ⌊stakeAmount * 1000000000000000000 * 2 / 100 +
          stakeAmount * 1000000000000000000 * 2 / 100 * q / 100⌋)) ∧
    (∀ (stakeAmount : ℚ) (q : ℚ),
      (0 : Int) ≤ max 0 ⌊stakeAmount * 1000000000000000000 * 2 / 100 +
        stakeAmount * 1000000000000000000 * 2 / 100 * q / 100⌋) ∧
    StakeExit.calculateFinalTradeValue 100 "-150%" = "0" := by
  refine ⟨?_, fun stakeAmount q => le_max_left 0 _, by decide⟩
  intro stakeAmount p q hp
  rw [StakeExit.calculateFinalTradeValue, hp]
  simp only [qadd_eq, qmul_eq, ratDiv_eq_div]

/-- Witness for C4 at the spec's stake-exit scenario inputs. -/
theorem C4_final_trade_value_witness :
    parsePnL "-150%" = some (-150) ∧
    StakeExit.calculateFinalTradeValue 100 "-150%" =
      intStr (max 0 ⌊(100 : ℚ) * 1000000000000000000 * 2 / 100 +
        (100 : ℚ) * 1000000000000000000 * 2 / 100 * (-150) / 100⌋) :=
  ⟨by decide, C4_final_trade_value.1 100 "-150%" (-150) (by decide)⟩

/-- C10: `calculateNewTradeValue` never returns a negative value for a non-negative
trading amount; a positive parsed P&L yields `tradingAmount + floor(tradingAmount*q/100)`,
a negative one yields `tradingAmount - floor(tradingAmount*|q|/100)` clamped at 0, and a
zero or unparseable P&L returns the trading amount unchanged. -/
theorem C10_new_trade_value :
    ∀ (tradingAmount : Int) (p : String),
      (0 ≤ tradingAmount → 0 ≤ Blockchain.calculateNewTradeValue tradingAmount p) ∧
      (parsePnL p = none →
        Blockchain.calculateNewTradeValue tradingAmount p = tradingAmount) ∧
      ∀ q : ℚ, parsePnL p = some q →
        (0 < q → Blockchain.calculateNewTradeValue tradingAmount p =
          tradingAmount + ⌊(tradingAmount : ℚ) * q / 100⌋) ∧
        (q < 0 → Blockchain.calculateNewTradeValue tradingAmount p =
          max 0 (tradingAmount - ⌊(tradingAmount : ℚ) * |q| / 100⌋)) ∧
        (q = 0 → Blockchain.calculateNewTradeValue tradingAmount p = tradingAmount) := by
  have hmax : ∀ n : Int, (if n < 0 then (0 : Int) else n) = max 0 n := by
    intro n
    by_cases hn : n < 0
    · rw [if_pos hn, max_eq_left hn.le]
    · rw [if_neg hn, max_eq_right (not_lt.mp hn)]
  intro tradingAmount p
  refine ⟨?_, ?_, ?_⟩
  · intro ht
    rw [Blockchain.calculateNewTradeValue]
    cases hp : parsePnL p with
    | none => exact ht
    | some q =>
      simp only [qmul_eq, ratDiv_eq_div, qabs_eq]
      by_cases h1 : 0 < q
      · rw [if_pos h1]
        have hq : (0 : ℚ) ≤ (tradingAmount : ℚ) * q / 100 :=
          div_nonneg (mul_nonneg (by exact_mod_cast ht) h1.le) (by norm_num)
        exact add_nonneg ht (Int.floor_nonneg.mpr hq)
      · rw [if_neg h1]
        by_cases h2 : q < 0
        · rw [if_pos h2]
          simp only [hmax]
          exact le_max_left 0 _
        · rw [if_neg h2]
          exact ht
  · intro hp
    rw [Blockchain.calculateNewTradeValue, hp]
  · intro q hp
    refine ⟨?_, ?_, ?_⟩
    · intro h1
      rw [Blockchain.calculateNewTradeValue, hp]
      simp only [qmul_eq, ratDiv_eq_div]
      rw [if_pos h1]
    · intro h2
      rw [Blockchain.calculateNewTradeValue, hp]
      simp only [qmul_eq, ratDiv_eq_div, qabs_eq]
      rw [if_neg (by exact fun h => absurd (h.trans h2) (lt_irrefl 0)), if_pos h2, hmax]
    · intro h0
      subst h0
      rw [Blockchain.calculateNewTradeValue, hp]
      simp

/-- Witness for C10: trading amount 10 with P&L `"-50%"` stays non-negative and equals the
clamped subtraction formula; an unparseable P&L leaves the amount unchanged. -/
theorem C10_new_trade_value_witness :
    0 ≤ Blockchain.calculateNewTradeValue 10 "-50%" ∧
    Blockchain.calculateNewTradeValue 10 "-50%" =
      max 0 (10 - ⌊(10 : ℚ) * |(-50 : ℚ)| / 100⌋) ∧
    Blockchain.calculateNewTradeValue 7 "oops" = 7 :=
  ⟨(C10_new_trade_value 10 "-50%").1 (by decide),
   ((C10_new_trade_value 10 "-50%").2.2 (-50) (by decide)).2.1 (by norm_num),
   (C10_new_trade_value 7 "oops").2.1 (by decide)⟩

/-- C9: when the ledger lookup inside `getProcessedSignalIds` fails, the function returns
the empty set instead of propagating the error, and `filterUnprocessedSignals` then treats
every candidate as unprocessed (returns the full list); when `filterUnprocessedSignals`'s
own body fails, it likewise returns the full candidate list — in neither case is the
subscriber batch aborted. -/
theorem C9_error_fallbacks :
    ∀ (db : Database) (subscriberAddress : String) (signals : List BacktestingSignal),
      (∀ msg, DatabaseManager.getProcessedSignalIdsCore db subscriberAddress = .error msg →
        DatabaseManager.getProcessedSignalIds db subscriberAddress = [] ∧
        SignalProcessor.filterUnprocessedSignals db subscriberAddress signals = signals) ∧
      (∀ msg,
        SignalProcessor.filterUnprocessedSignalsCore db subscriberAddress signals =
          .error msg →
        SignalProcessor.filterUnprocessedSignals db subscriberAddress signals = signals) := by
  intro db subscriberAddress signals
  constructor
  · intro msg hcore
    have hids : DatabaseManager.getProcessedSignalIds db subscriberAddress = [] := by
      rw [DatabaseManager.getProcessedSignalIds, hcore]
    refine ⟨hids, ?_⟩
    rw [SignalProcessor.filterUnprocessedSignals, SignalProcessor.filterUnprocessedSignalsCore]
    by_cases hff : db.filterFails
    · rw [if_pos hff]
    · rw [if_neg hff]
      simp only [hids, List.contains_nil, Bool.not_false, List.filter_true]
  · intro msg hcore
    rw [SignalProcessor.filterUnprocessedSignals, hcore]

/-- Witness for C9: a database whose ledger read fails, and one whose filtering body
fails; both degrade as described. -/
theorem C9_error_fallbacks_witness :
    DatabaseManager.getProcessedSignalIds ⟨[], [], true, false, 0⟩ "0xA" = [] ∧
    SignalProcessor.filterUnprocessedSignals ⟨[], [], true, false, 0⟩ "0xA"
      [⟨"s1", "a", 0, "1%", true⟩] = [⟨"s1", "a", 0, "1%", true⟩] ∧
    SignalProcessor.filterUnprocessedSignals ⟨[], [], false, true, 0⟩ "0xA"
      [⟨"s1", "a", 0, "1%", true⟩] = [⟨"s1", "a", 0, "1%", true⟩] :=
  ⟨((C9_error_fallbacks ⟨[], [], true, false, 0⟩ "0xA" [⟨"s1", "a", 0, "1%", true⟩]).1
      "lookup failed" rfl).1,
   ((C9_error_fallbacks ⟨[], [], true, false, 0⟩ "0xA" [⟨"s1", "a", 0, "1%", true⟩]).1
      "lookup failed" rfl).2,
   (C9_error_fallbacks ⟨[], [], false, true, 0⟩ "0xA" [⟨"s1", "a", 0, "1%", true⟩]).2
      "filtering failed" rfl⟩

theorem filterUnprocessed_subset (db : Database) (addr : String)
    (signals : List BacktestingSignal) :
    ∀ s ∈ SignalProcessor.filterUnprocessedSignals db addr signals, s ∈ signals := by
  intro s hs
  rw [SignalProcessor.filterUnprocessedSignals, SignalProcessor.filterUnprocessedSignalsCore]
    at hs
  by_cases hff : db.filterFails
  · rw [if_pos hff] at hs
    exact hs
  · rw [if_neg hff] at hs
    exact List.mem_of_mem_filter hs

/-- C8: when a subscriber has a non-empty batch of unprocessed in-window signals, the
emitted result carries exactly the batch, its size, and the cumulative total: the existing
summary's `totalPnLPercentage` (0 when no summary exists) plus the parsed value of the new
batch's formatted P&L sum, reformatted to two decimals with a `%` suffix; in the spec's
scenario, an existing total of 5.00 with a batch summing to `"-2.50%"` emits `"2.50%"`. -/
theorem C8_cumulative_total :
    (∀ (db : Database) (influencer : Influencer) (validSignals : List BacktestingSignal)
        (subscriber : Subscriber)
        (relevantSignals unprocessedSignals : List BacktestingSignal),
      relevantSignals = validSignals.filter (fun signal =>
        decide (subscriber.subscribedAt < signal.generatedAt ∧
          signal.generatedAt ≤ subscriber.subscribedAt + SignalProcessor.sevenDaysMs)) →
      unprocessedSignals =
        SignalProcessor.filterUnprocessedSignals db subscriber.address relevantSignals →
      relevantSignals ≠ [] →
      unprocessedSignals ≠ [] →
      ∀ v, parsePnL (SignalProcessor.calculateTotalSumPnL
          (SignalProcessor.processSubscriberSignals subscriber influencer
            unprocessedSignals)) = some v →
        (SignalProcessor.processOneSubscriber db influencer validSignals subscriber).1 =
          some (subscriber.address,
            { signals := SignalProcessor.processSubscriberSignals subscriber influencer
                unprocessedSignals
              totalSumPnL := toFixed2
                ((match DatabaseManager.getUserSignalSummary db subscriber.address with
                  | some s => s.totalPnLPercentage
                  | none => 0) + v) ++ "%"
              newSignalsCount := (SignalProcessor.processSubscriberSignals subscriber
                influencer unprocessedSignals).length })) ∧
    ((SignalProcessor.processOneSubscriber
        ⟨[], [⟨"0xA", 3, 5, 0, none⟩], false, false, 99⟩
        ⟨"inf", [⟨"u", "0xA", 0⟩]⟩ [⟨"s1", "inf", 5, "-2.50%", true⟩]
        ⟨"u", "0xA", 0⟩).1.map (fun e => e.2.totalSumPnL)) = some "2.50%" := by
  constructor
  · intro db influencer validSignals subscriber relevantSignals unprocessedSignals hrel hunp
      hrelne hunpne v hv
    subst hrel
    subst hunp
    have hwin : ∀ s ∈ SignalProcessor.filterUnprocessedSignals db subscriber.address
        (validSignals.filter fun signal =>
          decide (subscriber.subscribedAt < signal.generatedAt ∧
            signal.generatedAt ≤ subscriber.subscribedAt + SignalProcessor.sevenDaysMs)),
        decide (subscriber.subscribedAt < s.generatedAt ∧
          s.generatedAt ≤ subscriber.subscribedAt + SignalProcessor.sevenDaysMs) = true := by
      intro s hs
      exact (List.mem_filter.mp (filterUnprocessed_subset db subscriber.address _ s hs)).2
    have hlen3 : (SignalProcessor.processSubscriberSignals subscriber influencer
        (SignalProcessor.filterUnprocessedSignals db subscriber.address
          (validSignals.filter fun signal =>
            decide (subscriber.subscribedAt < signal.generatedAt ∧
              signal.generatedAt ≤ subscriber.subscribedAt +
                SignalProcessor.sevenDaysMs)))).length ≠ 0 := by
      rw [processSubscriberSignals_eq, List.length_map, List.filter_eq_self.mpr hwin]
      exact fun h => hunpne (List.length_eq_zero.mp h)
    rw [SignalProcessor.processOneSubscriber]
    rw [if_neg (fun h => hrelne (List.length_eq_zero.mp h))]
    rw [if_neg (fun h => hunpne (List.length_eq_zero.mp h))]
    rw [if_neg hlen3]
    simp only [hv, Option.getD_some, qadd_eq]
  · decide

/-- Witness for C8 at the spec's cumulative-total scenario: existing summary total `5`,
one unprocessed in-window signal with P&L `"-2.50%"`. -/
theorem C8_cumulative_total_witness :
    (SignalProcessor.processOneSubscriber
        ⟨[], [⟨"0xA", 3, 5, 0, none⟩], false, false, 99⟩
        ⟨"inf", [⟨"u", "0xA", 0⟩]⟩ [⟨"s1", "inf", 5, "-2.50%", true⟩]
        ⟨"u", "0xA", 0⟩).1 =
      some ((⟨"u", "0xA", 0⟩ : Subscriber).address,
        { signals := SignalProcessor.processSubscriberSignals ⟨"u", "0xA", 0⟩
            ⟨"inf", [⟨"u", "0xA", 0⟩]⟩
            (SignalProcessor.filterUnprocessedSignals
              ⟨[], [⟨"0xA", 3, 5, 0, none⟩], false, false, 99⟩
              (⟨"u", "0xA", 0⟩ : Subscriber).address
              ([⟨"s1", "inf", 5, "-2.50%", true⟩].filter fun signal =>
                decide ((⟨"u", "0xA", 0⟩ : Subscriber).subscribedAt < signal.generatedAt ∧
                  signal.generatedAt ≤ (⟨"u", "0xA", 0⟩ : Subscriber).subscribedAt +
                    SignalProcessor.sevenDaysMs)))
          totalSumPnL := toFixed2
            ((match DatabaseManager.getUserSignalSummary
                ⟨[], [⟨"0xA", 3, 5, 0, none⟩], false, false, 99⟩
                (⟨"u", "0xA", 0⟩ : Subscriber).address with
              | some s => s.totalPnLPercentage
              | none => 0) + mkRat (-5) 2) ++ "%"
          newSignalsCount := (SignalProcessor.processSubscriberSignals ⟨"u", "0xA", 0⟩
            ⟨"inf", [⟨"u", "0xA", 0⟩]⟩
            (SignalProcessor.filterUnprocessedSignals
              ⟨[], [⟨"0xA", 3, 5, 0, none⟩], false, false, 99⟩
              (⟨"u", "0xA", 0⟩ : Subscriber).address
              ([⟨"s1", "inf", 5, "-2.50%", true⟩].filter fun signal =>
                decide ((⟨"u", "0xA", 0⟩ : Subscriber).subscribedAt < signal.generatedAt ∧
                  signal.generatedAt ≤ (⟨"u", "0xA", 0⟩ : Subscriber).subscribedAt +
                    SignalProcessor.sevenDaysMs)))).length }) :=
  C8_cumulative_total.1
    ⟨[], [⟨"0xA", 3, 5, 0, none⟩], false, false, 99⟩
    ⟨"inf", [⟨"u", "0xA", 0⟩]⟩
    [⟨"s1", "inf", 5, "-2.50%", true⟩]
    ⟨"u", "0xA", 0⟩
    _ _ rfl rfl (by decide) (by decide) (mkRat (-5) 2) (by decide)
